import Mathlib

/-!
Verification of the Go-M3u8-Telegram-Uploader repository against its
natural-language specification.  The Go sources are shallowly embedded:
pure computations become Lean functions; functions performing I/O become
functions over explicit oracle environments describing the outcome of each
external step (HTTP fetch, file creation, rename, external command), and
the filesystem effects are recorded as explicit operation traces applied
to a filesystem state.  All names follow the Go sources where Lean permits.
-/

namespace Downloader

/-! ### Progress tracker (downloader package, `OverallProgress`)

The Go struct additionally carries `totalBytes`, `startTime`, `lastUpdate`
and a mutex; the time fields only gate the (commented-out) progress render
and the mutex serialises calls, so the embedded state keeps exactly the
counters the spec's claims are about. -/

structure OverallProgress where
  totalSegments : Int
  completedSegments : Int
  downloadedBytes : Int
  deriving Repr, DecidableEq

def NewOverallProgress (totalSegments : Int) : OverallProgress :=
  { totalSegments := totalSegments, completedSegments := 0, downloadedBytes := 0 }

/-- `(op *OverallProgress) UpdateSegment(segmentIndex int, completed bool, bytes int64)`:
increments `completedSegments` and adds `bytes` to `downloadedBytes` only
when `completed` is true; the `segmentIndex` argument is unused by the body. -/
def UpdateSegment (op : OverallProgress) (_segmentIndex : Int) (completed : Bool)
    (bytes : Int) : OverallProgress :=
  if completed then
    { op with completedSegments := op.completedSegments + 1,
              downloadedBytes := op.downloadedBytes + bytes }
  else
    op

/-- Run a sequence of `UpdateSegment` calls, each given as
(segmentIndex, completed, bytes). -/
def runUpdates (op : OverallProgress) (us : List (Int × Bool × Int)) : OverallProgress :=
  us.foldl (fun acc u => UpdateSegment acc u.1 u.2.1 u.2.2) op

end Downloader

namespace Downloader

lemma runUpdates_nil (op : OverallProgress) : runUpdates op [] = op := rfl

lemma runUpdates_cons (op : OverallProgress) (u : Int × Bool × Int)
    (us : List (Int × Bool × Int)) :
    runUpdates op (u :: us) = runUpdates (UpdateSegment op u.1 u.2.1 u.2.2) us := rfl

lemma runUpdates_success_counts (us : List (Int × Bool × Int))
    (h : ∀ u ∈ us, u.2.1 = true) (op : OverallProgress) :
    (runUpdates op us).completedSegments = op.completedSegments + us.length ∧
      (runUpdates op us).downloadedBytes =
        op.downloadedBytes + (us.map (fun u => u.2.2)).sum ∧
      (runUpdates op us).totalSegments = op.totalSegments := by
  induction us generalizing op with
  | nil => simp [runUpdates]
  | cons u us ih =>
    have hu : u.2.1 = true := h u (List.mem_cons_self u us)
    have hrest : ∀ v ∈ us, v.2.1 = true := fun v hv => h v (List.mem_cons_of_mem u hv)
    rw [runUpdates_cons]
    obtain ⟨h1, h2, h3⟩ := ih hrest (UpdateSegment op u.1 u.2.1 u.2.2)
    refine ⟨?_, ?_, ?_⟩
    · rw [h1]; simp [UpdateSegment, hu]; ring
    · rw [h2]; simp [UpdateSegment, hu]; ring
    · rw [h3]; simp [UpdateSegment, hu]

end Downloader

namespace Downloader

/-! ### Segment filenames and the merge-time sort order

`downloadSegmentsConcurrently` names segment `i` with
`fmt.Sprintf("segment_%04d.ts", i)`; `MergeFiles` globs `*.ts` and sorts the
names with `sort.Strings` (byte-wise lexicographic order; every character
here is ASCII, so character order equals byte order). -/

/-- Big-endian decimal digit list of a natural number, as produced by Go's
`fmt` integer formatting.  Written with explicit structural fuel;
`decRepFuel (n+1) n` always has enough fuel. -/
def decRepFuel : Nat → Nat → List Nat
  | 0, _ => []
  | fuel + 1, n => if n < 10 then [n] else decRepFuel fuel (n / 10) ++ [n % 10]

def decRep (n : Nat) : List Nat := decRepFuel (n + 1) n

/-- The `%04d` verb: decimal digits left-padded with zeros to minimum width 4
(wider when the number needs more than four digits). -/
def pad4 (n : Nat) : List Nat :=
  List.replicate (4 - (decRep n).length) 0 ++ decRep n

/-- `fmt.Sprintf("segment_%04d.ts", n)` as a character list. -/
def segmentFilename (n : Nat) : List Char :=
  "segment_".toList ++ ((pad4 n).map Nat.digitChar ++ ".ts".toList)

/-- Byte-wise lexicographic strict order on strings — the order of Go's
`string <` used by `sort.Strings` in `MergeFiles`. -/
def lexLt : List Char → List Char → Bool
  | [], [] => false
  | [], _ :: _ => true
  | _ :: _, [] => false
  | a :: as, b :: bs => if a = b then lexLt as bs else decide (a < b)

/-- Value of a big-endian digit list. -/
def valBE (l : List Nat) : Nat := l.foldl (fun acc d => acc * 10 + d) 0

lemma foldl_valBE (l : List Nat) (acc : Nat) :
    l.foldl (fun a d => a * 10 + d) acc = acc * 10 ^ l.length + valBE l := by
  induction l generalizing acc with
  | nil => simp [valBE]
  | cons d l ih =>
    simp only [List.foldl_cons, List.length_cons]
    rw [ih (acc * 10 + d)]
    have hv : valBE (d :: l) = d * 10 ^ l.length + valBE l := by
      simp only [valBE, List.foldl_cons]
      have := ih d
      simpa using this
    rw [hv]
    ring

lemma valBE_cons (d : Nat) (l : List Nat) :
    valBE (d :: l) = d * 10 ^ l.length + valBE l := by
  simp only [valBE, List.foldl_cons]
  simpa using foldl_valBE l d

lemma valBE_append_singleton (l : List Nat) (d : Nat) :
    valBE (l ++ [d]) = valBE l * 10 + d := by
  simp only [valBE, List.foldl_append, List.foldl_cons, List.foldl_nil]

lemma valBE_replicate_zero_append (k : Nat) (l : List Nat) :
    valBE (List.replicate k 0 ++ l) = valBE l := by
  induction k with
  | zero => simp
  | succ k ih =>
    simpa [List.replicate_succ, valBE] using ih

lemma valBE_decRepFuel : ∀ fuel n, n < fuel → valBE (decRepFuel fuel n) = n := by
  intro fuel
  induction fuel with
  | zero => intro n h; omega
  | succ fuel ih =>
    intro n h
    by_cases h10 : n < 10
    · simp [decRepFuel, h10, valBE]
    · have hpos : 0 < n := by omega
      have hlt : n / 10 < n := Nat.div_lt_self hpos (by omega)
      have hfuel : n / 10 < fuel := by omega
      simp only [decRepFuel, if_neg h10]
      rw [valBE_append_singleton, ih _ hfuel]
      omega

lemma decRep_valBE (n : Nat) : valBE (decRep n) = n :=
  valBE_decRepFuel (n + 1) n (Nat.lt_succ_self n)

lemma decRepFuel_digits_lt : ∀ fuel n d, d ∈ decRepFuel fuel n → d < 10 := by
  intro fuel
  induction fuel with
  | zero => intro n d h; simp [decRepFuel] at h
  | succ fuel ih =>
    intro n d h
    by_cases h10 : n < 10
    · simp [decRepFuel, h10] at h
      omega
    · simp only [decRepFuel, if_neg h10, List.mem_append, List.mem_singleton] at h
      rcases h with h | h
      · exact ih _ _ h
      · subst h; exact Nat.mod_lt _ (by omega)

lemma decRepFuel_length_le :
    ∀ fuel n k, n < fuel → n < 10 ^ k → 1 ≤ k → (decRepFuel fuel n).length ≤ k := by
  intro fuel
  induction fuel with
  | zero => intro n k h _ _; omega
  | succ fuel ih =>
    intro n k h hk h1
    by_cases h10 : n < 10
    · simp [decRepFuel, h10]
      omega
    · have hk2 : 2 ≤ k := by
        by_contra hc
        have : k = 1 := by omega
        subst this
        simp at hk
        omega
      have hdiv : n / 10 < 10 ^ (k - 1) := by
        have h10pos : (0 : Nat) < 10 := by omega
        rw [Nat.div_lt_iff_lt_mul h10pos]
        have : 10 ^ (k - 1) * 10 = 10 ^ k := by
          rw [← pow_succ]
          congr 1
          omega
        omega
      have hfuel : n / 10 < fuel := by
        have hpos : 0 < n := by omega
        have := Nat.div_lt_self hpos (show (1:Nat) < 10 by omega)
        omega
      simp only [decRepFuel, if_neg h10, List.length_append, List.length_singleton]
      have := ih (n / 10) (k - 1) hfuel hdiv (by omega)
      omega

lemma decRep_length_le_four (n : Nat) (h : n < 10000) : (decRep n).length ≤ 4 :=
  decRepFuel_length_le (n + 1) n 4 (Nat.lt_succ_self n) (by norm_num; omega) (by omega)

lemma pad4_length (n : Nat) (h : n < 10000) : (pad4 n).length = 4 := by
  have hle := decRep_length_le_four n h
  simp [pad4]
  omega

lemma pad4_valBE (n : Nat) : valBE (pad4 n) = n := by
  rw [pad4, valBE_replicate_zero_append, decRep_valBE]

lemma pad4_digits_lt (n : Nat) (d : Nat) (h : d ∈ pad4 n) : d < 10 := by
  simp only [pad4, List.mem_append, List.mem_replicate] at h
  rcases h with h | h
  · omega
  · exact decRepFuel_digits_lt _ _ _ h

lemma valBE_lt_pow (l : List Nat) (h : ∀ d ∈ l, d < 10) :
    valBE l < 10 ^ l.length := by
  induction l with
  | nil => simp [valBE]
  | cons d l ih =>
    rw [valBE_cons]
    have hd : d < 10 := h d (List.mem_cons_self d l)
    have hl := ih (fun x hx => h x (List.mem_cons_of_mem d hx))
    have : d * 10 ^ l.length + valBE l < (d + 1) * 10 ^ l.length := by
      nlinarith
    calc d * 10 ^ l.length + valBE l < (d + 1) * 10 ^ l.length := this
      _ ≤ 10 * 10 ^ l.length := by nlinarith
      _ = 10 ^ (d :: l).length := by rw [List.length_cons, pow_succ]; ring

lemma digitChar_lt_of_lt : ∀ x : Nat, x < 10 → ∀ y : Nat, y < 10 → x < y →
    Nat.digitChar x < Nat.digitChar y := by decide

lemma digitChar_inj_lt : ∀ x : Nat, x < 10 → ∀ y : Nat, y < 10 →
    Nat.digitChar x = Nat.digitChar y → x = y := by decide

/-- Equal-length digit lists compare lexicographically (after rendering to
characters) the same way their values compare numerically. -/
lemma lexLt_of_valBE_lt :
    ∀ (a b : List Nat), a.length = b.length →
      (∀ d ∈ a, d < 10) → (∀ d ∈ b, d < 10) →
      valBE a < valBE b →
      lexLt (a.map Nat.digitChar) (b.map Nat.digitChar) = true := by
  intro a
  induction a with
  | nil =>
    intro b hlen _ _ hval
    have : b = [] := List.eq_nil_of_length_eq_zero (by simpa using hlen.symm)
    subst this
    simp [valBE] at hval
  | cons a0 as ih =>
    intro b hlen ha hb hval
    cases b with
    | nil => simp at hlen
    | cons b0 bs =>
      have hlen' : as.length = bs.length := by simpa using hlen
      have ha0 : a0 < 10 := ha a0 (List.mem_cons_self _ _)
      have hb0 : b0 < 10 := hb b0 (List.mem_cons_self _ _)
      have has : ∀ d ∈ as, d < 10 := fun d hd => ha d (List.mem_cons_of_mem _ hd)
      have hbs : ∀ d ∈ bs, d < 10 := fun d hd => hb d (List.mem_cons_of_mem _ hd)
      rw [valBE_cons, valBE_cons, hlen'] at hval
      simp only [List.map_cons, lexLt]
      rcases Nat.lt_trichotomy a0 b0 with hab | hab | hab
      · have hne : Nat.digitChar a0 ≠ Nat.digitChar b0 := by
          intro hEq
          exact absurd (digitChar_inj_lt a0 ha0 b0 hb0 hEq) (by omega)
        rw [if_neg hne]
        simpa using digitChar_lt_of_lt a0 ha0 b0 hb0 hab
      · subst hab
        rw [if_pos rfl]
        apply ih bs hlen' has hbs
        omega
      · exfalso
        have hbsval : valBE bs < 10 ^ bs.length := valBE_lt_pow bs hbs
        have : b0 * 10 ^ bs.length + valBE bs < a0 * 10 ^ bs.length := by
          have hstep : (b0 + 1) * 10 ^ bs.length ≤ a0 * 10 ^ bs.length := by
            apply Nat.mul_le_mul_right
            omega
          nlinarith
        omega

lemma lexLt_append_left (p a b : List Char) :
    lexLt (p ++ a) (p ++ b) = lexLt a b := by
  induction p with
  | nil => rfl
  | cons c p ih => simp [lexLt, ih]

lemma lexLt_append_of_lexLt :
    ∀ (a b s t : List Char), a.length = b.length → lexLt a b = true →
      lexLt (a ++ s) (b ++ t) = true := by
  intro a
  induction a with
  | nil =>
    intro b s t hlen hlt
    have : b = [] := List.eq_nil_of_length_eq_zero (by simpa using hlen.symm)
    subst this
    simp [lexLt] at hlt
  | cons a0 as ih =>
    intro b s t hlen hlt
    cases b with
    | nil => simp at hlen
    | cons b0 bs =>
      have hlen' : as.length = bs.length := by simpa using hlen
      simp only [lexLt, List.cons_append] at hlt ⊢
      by_cases hab : a0 = b0
      · rw [if_pos hab] at hlt ⊢
        exact ih bs s t hlen' hlt
      · rw [if_neg hab] at hlt ⊢
        exact hlt

end Downloader

/-- C8: when the tracker created for `M = bs.length` segments receives one
successful `UpdateSegment` call per index carrying that segment's byte count,
it ends with `completedSegments = totalSegments = M` and `downloadedBytes`
equal to the sum of the reported byte counts; and any call with
`completed = false` changes neither counter. -/
theorem C8_progress_consistency (bs : List Int) :
    (let final := Downloader.runUpdates
        (Downloader.NewOverallProgress (bs.length : Int))
        (bs.enum.map fun p => ((p.1 : Int), true, p.2))
     final.completedSegments = final.totalSegments ∧
       final.totalSegments = (bs.length : Int) ∧
       final.downloadedBytes = bs.sum) ∧
    ∀ (op : Downloader.OverallProgress) (idx b : Int),
      (Downloader.UpdateSegment op idx false b).completedSegments =
          op.completedSegments ∧
        (Downloader.UpdateSegment op idx false b).downloadedBytes =
          op.downloadedBytes := by
  constructor
  · have hall : ∀ u ∈ bs.enum.map (fun p : Nat × Int => ((p.1 : Int), true, p.2)),
        u.2.1 = true := by
      intro u hu
      simp only [List.mem_map] at hu
      obtain ⟨p, _, rfl⟩ := hu
      rfl
    obtain ⟨h1, h2, h3⟩ := Downloader.runUpdates_success_counts _ hall
      (Downloader.NewOverallProgress (bs.length : Int))
    refine ⟨?_, ?_, ?_⟩
    · rw [h1, h3]
      simp [Downloader.NewOverallProgress]
    · exact h3
    · rw [h2]
      have hc : ((fun u : Int × Bool × Int => u.2.2) ∘
          fun p : Nat × Int => ((p.1 : Int), true, p.2)) = Prod.snd := by
        funext p; rfl
      simp only [List.map_map, hc, List.enum_map_snd]
      simp [Downloader.NewOverallProgress]
  · intro op idx b
    exact ⟨rfl, rfl⟩

namespace Downloader

lemma segmentFilename_digit_block_length (n : Nat) (h : n < 10000) :
    ((pad4 n).map Nat.digitChar).length = 4 := by
  rw [List.length_map]
  exact pad4_length n h

end Downloader

/-- C2 (amended): for all segment indices `i < j` with `j < 10000`, the
filename `segment_%04d.ts` of index `i` sorts strictly before that of `j`
in the byte-wise lexicographic order used by `MergeFiles`; the unrestricted
claim (for every segment count `M`) fails at index 10000. -/
theorem C2_segment_filename_order (i j : Nat) (hij : i < j) (hj : j < 10000) :
    Downloader.lexLt (Downloader.segmentFilename i) (Downloader.segmentFilename j) = true := by
  have hi : i < 10000 := lt_trans hij hj
  unfold Downloader.segmentFilename
  rw [Downloader.lexLt_append_left]
  apply Downloader.lexLt_append_of_lexLt
  · rw [Downloader.segmentFilename_digit_block_length i hi,
      Downloader.segmentFilename_digit_block_length j hj]
  · apply Downloader.lexLt_of_valBE_lt
    · rw [Downloader.pad4_length i hi, Downloader.pad4_length j hj]
    · exact Downloader.pad4_digits_lt i
    · exact Downloader.pad4_digits_lt j
    · rw [Downloader.pad4_valBE, Downloader.pad4_valBE]
      exact hij

/-- C2 witness: the amended ordering theorem applied at indices 0 and 1. -/
theorem C2_segment_filename_order_witness :
    0 < 1 ∧ 1 < 10000 ∧
      Downloader.lexLt (Downloader.segmentFilename 0) (Downloader.segmentFilename 1) = true :=
  ⟨by norm_num, by norm_num, C2_segment_filename_order 0 1 (by norm_num) (by norm_num)⟩

/-- C2 counterexample: at segment count `M = 10001` the claim as stated
fails — `segment_9999.ts` does NOT sort before `segment_10000.ts`
(indeed the opposite strict order holds), because `%04d` grows to five
digits at index 10000. -/
theorem C2_counterexample_at_10000 :
    9999 < 10000 ∧
      Downloader.lexLt (Downloader.segmentFilename 9999)
        (Downloader.segmentFilename 10000) = false ∧
      Downloader.lexLt (Downloader.segmentFilename 10000)
        (Downloader.segmentFilename 9999) = true := by
  refine ⟨by norm_num, ?_, ?_⟩ <;> decide

namespace Downloader

/-! ### Playlist parsing (`parseM3U8Content`)

`url.Parse` of the base URL and the parse-and-resolve of a relative segment
line are external to the core logic and are embedded as oracles: `baseOk`
is whether the base URL parses, and `relParse l` is `none` when `url.Parse l`
fails (the line is skipped with only a printed warning) and otherwise the
string of `base.ResolveReference(rel)`. -/

/-- `strings.TrimSpace`: strip leading and trailing whitespace (the inputs
of interest are ASCII, where Go and Lean agree on what whitespace is). -/
def trimSpace (s : String) : String :=
  String.mk (((s.toList.dropWhile Char.isWhitespace).reverse.dropWhile
    Char.isWhitespace).reverse)

/-- `strings.HasPrefix` on the underlying character lists. -/
def startsWithL : List Char → List Char → Bool
  | _, [] => true
  | [], _ :: _ => false
  | a :: as, b :: bs => a = b && startsWithL as bs

def startsWithS (s pre : String) : Bool := startsWithL s.toList pre.toList

/-- `strings.Split(content, "\n")` on the underlying character list. -/
def splitLinesL : List Char → List (List Char)
  | [] => [[]]
  | c :: rest =>
    match splitLinesL rest with
    | [] => [[c]]
    | l :: ls => if c = '\n' then [] :: l :: ls else (c :: l) :: ls

def splitLines (s : String) : List String := (splitLinesL s.toList).map String.mk

/-- Per-line handling of the parse loop body: blank and `#` lines are
skipped; a line starting with `http` is used verbatim; otherwise the line is
parsed and resolved against the base, and a parse failure skips the line. -/
def processLine (relParse : String → Option String) (line : String) : Option String :=
  let l := trimSpace line
  if l = "" then none
  else if startsWithS l "#" then none
  else if startsWithS l "http" then some l
  else relParse l

/-- `parseM3U8Content(content, baseURL)`: returns an error exactly when the
base URL fails to parse; otherwise collects the surviving lines in file
order. -/
def parseM3U8Content (relParse : String → Option String) (content : String)
    (baseOk : Bool) : Except String (List String) :=
  if baseOk then Except.ok ((splitLines content).filterMap (processLine relParse))
  else Except.error "invalid base URL"

/-- The non-blank, non-comment lines of the manifest: the lines that are
candidates for a segment index. -/
def candidateLine (line : String) : Bool :=
  decide (trimSpace line ≠ "") && !(startsWithS (trimSpace line) "#")

def candidateLines (content : String) : List String :=
  (splitLines content).filter candidateLine

lemma processLine_of_not_candidate (relParse : String → Option String)
    (line : String) (h : candidateLine line = false) :
    processLine relParse line = none := by
  simp only [candidateLine, Bool.and_eq_false_iff, decide_eq_false_iff_not,
    Bool.not_eq_false', not_not] at h
  unfold processLine
  rcases h with h | h
  · simp [h]
  · by_cases he : trimSpace line = ""
    · simp [he]
    · simp [he, h]

lemma filterMap_eq_filterMap_filter (relParse : String → Option String) :
    ∀ lines : List String,
      lines.filterMap (processLine relParse) =
        (lines.filter candidateLine).filterMap (processLine relParse) := by
  intro lines
  induction lines with
  | nil => rfl
  | cons a t ih =>
    by_cases hc : candidateLine a = true
    · simp only [List.filter_cons, hc, if_true, List.filterMap_cons, ih]
    · have hf : candidateLine a = false := by
        cases hca : candidateLine a
        · rfl
        · exact absurd hca hc
      simp only [List.filter_cons, hf, Bool.false_eq_true, if_false,
        List.filterMap_cons, processLine_of_not_candidate relParse a hf, ih]

lemma filterMap_get_countP {α β : Type} (f : α → Option β) :
    ∀ (l : List α) (k : Nat) (h : k < l.length) (v : β),
      f (l.get ⟨k, h⟩) = some v →
        (l.filterMap f).get?
            ((l.take k).countP (fun c => (f c).isSome)) = some v := by
  intro l
  induction l with
  | nil => intro k h; simp at h
  | cons a t ih =>
    intro k h v hv
    cases k with
    | zero =>
      simp only [List.get] at hv
      simp [List.filterMap_cons, hv]
    | succ k =>
      have hk : k < t.length := by simpa using h
      simp only [List.get] at hv
      rw [List.take_succ_cons, List.countP_cons]
      cases hfa : f a with
      | none =>
        simp only [List.filterMap_cons, hfa, Option.isSome_none,
          Bool.false_eq_true, if_false, Nat.add_zero]
        exact ih k hk v hv
      | some w =>
        simp only [List.filterMap_cons, hfa, Option.isSome_some, if_true]
        rw [List.get?_cons_succ]
        exact ih k hk v hv

lemma countP_isSome_take {α β : Type} (f : α → Option β) (l : List α) (k : Nat)
    (h : k ≤ l.length) :
    (l.take k).countP (fun c => (f c).isSome) =
      k - (l.take k).countP (fun c => (f c).isNone) := by
  have hlen : (l.take k).length = k := by
    rw [List.length_take]
    omega
  have hsplit : (l.take k).countP (fun c => (f c).isSome) +
      (l.take k).countP (fun c => (f c).isNone) = (l.take k).length := by
    induction l.take k with
    | nil => rfl
    | cons a t iht =>
      simp only [List.countP_cons, List.length_cons]
      cases f a <;> simp <;> omega
  omega

end Downloader

/-- C9: whenever the base URL parses, `parseM3U8Content` returns no error
(for every content string); a candidate (non-blank, non-comment, non-http)
line whose relative URL fails to parse is silently dropped; consequently a
surviving candidate at candidate-position `k` receives segment index
`k` minus the number of skipped candidate lines before it. -/
theorem C9_parse_errors_and_index_shift :
    (∀ (relParse : String → Option String) (content : String),
        ∃ segs,
          Downloader.parseM3U8Content relParse content true = Except.ok segs) ∧
    (∀ (relParse : String → Option String) (line : String),
        Downloader.trimSpace line ≠ "" →
        Downloader.startsWithS (Downloader.trimSpace line) "#" = false →
        Downloader.startsWithS (Downloader.trimSpace line) "http" = false →
        relParse (Downloader.trimSpace line) = none →
        Downloader.processLine relParse line = none) ∧
    (∀ (relParse : String → Option String) (content : String)
        (k : Nat) (hk : k < (Downloader.candidateLines content).length)
        (v : String),
        Downloader.processLine relParse
            ((Downloader.candidateLines content).get ⟨k, hk⟩) = some v →
        ∀ segs,
          Downloader.parseM3U8Content relParse content true = Except.ok segs →
          segs.get? (k - ((Downloader.candidateLines content).take k).countP
              (fun c => (Downloader.processLine relParse c).isNone)) = some v) := by
  refine ⟨?_, ?_, ?_⟩
  · intro relParse content
    exact ⟨_, rfl⟩
  · intro relParse line h1 h2 h3 h4
    simp [Downloader.processLine, h1, h2, h3, h4]
  · intro relParse content k hk v hv segs hsegs
    have hsegs' : segs =
        (Downloader.splitLines content).filterMap (Downloader.processLine relParse) := by
      simpa [Downloader.parseM3U8Content] using hsegs.symm
    subst hsegs'
    rw [Downloader.filterMap_eq_filterMap_filter]
    have hidx := Downloader.countP_isSome_take
      (Downloader.processLine relParse) (Downloader.candidateLines content) k
      (le_of_lt hk)
    rw [← hidx]
    exact Downloader.filterMap_get_countP _ _ k hk v hv

/-- A concrete resolve oracle for the C9 witness: the line "bad" fails to
parse, every other line resolves to itself. -/
def rpW9 : String → Option String := fun s => if s = "bad" then none else some s

/-- A concrete manifest for the C9 witness: a comment, a parse-failing line,
and a surviving segment line. -/
def cW9 : String := "#x\nbad\nfoo"

/-- C9 witness: on the concrete manifest the parse-failing candidate line is
skipped, and the surviving candidate at candidate-position 1 receives
segment index 0. -/
theorem C9_parse_witness :
    Downloader.processLine rpW9 "bad" = none ∧
      (["foo"] : List String).get?
        (1 - ((Downloader.candidateLines cW9).take 1).countP
          (fun c => (Downloader.processLine rpW9 c).isNone)) = some "foo" :=
  ⟨C9_parse_errors_and_index_shift.2.1 rpW9 "bad" (by decide) (by decide)
      (by decide) (by decide),
    C9_parse_errors_and_index_shift.2.2 rpW9 cW9 1 (by decide) "foo" (by decide)
      ["foo"] rfl⟩

namespace Extractor

/-! ### `extractor.ExtractURL`

`url.Parse` is external; the embedding works on an already-parsed URL
record (the subset of `net/url.URL` these URLs use), and `urlString` models
`URL.String()` for absolute URLs with a host. -/

structure GoURL where
  scheme : String
  host : String
  path : String
  rawQuery : String
  fragment : String
  deriving DecidableEq

def urlString (u : GoURL) : String :=
  u.scheme ++ "://" ++ u.host ++ u.path ++
    (if u.rawQuery = "" then "" else "?" ++ u.rawQuery) ++
    (if u.fragment = "" then "" else "#" ++ u.fragment)

def endsWithSlashL (l : List Char) : Bool :=
  match l.getLast? with
  | some c => c = '/'
  | none => false

/-- `strings.TrimSuffix(path, "/")`: removes one trailing slash if present. -/
def trimSuffixSlash (s : String) : String :=
  if endsWithSlashL s.toList then String.mk s.toList.dropLast else s

def dropTrailingSlashes (l : List Char) : List Char :=
  (l.reverse.dropWhile (fun c => c = '/')).reverse

def afterLastSlash (l : List Char) : List Char :=
  (l.reverse.takeWhile (fun c => c ≠ '/')).reverse

/-- `path.Base`: "." for the empty path, otherwise the last path element
after stripping trailing slashes; "/" when the path consists of slashes. -/
def pathBase (p : String) : String :=
  if p = "" then "."
  else
    let b := afterLastSlash (dropTrailingSlashes p.toList)
    if b = [] then "/" else String.mk b

/-- `ExtractURL(raw)` after a successful `url.Parse`: clears the fragment,
returns the canonical URL string and the basename of the path with one
trailing slash stripped. -/
def ExtractURL (u : GoURL) : String × String :=
  let u' : GoURL := { u with fragment := "" }
  let cleanPath := trimSuffixSlash u'.path
  (urlString u', pathBase cleanPath)

end Extractor

/-- Two distinct source URLs (same path basename, different hosts and
directories) used to refute C5. -/
def uA : Extractor.GoURL := ⟨"https", "a.com", "/x/v1", "", ""⟩

def uB : Extractor.GoURL := ⟨"https", "b.com", "/y/v1", "", ""⟩

/-- A URL sharing `uA`'s host but with a different path basename, for the
C5 witness. -/
def uC : Extractor.GoURL := ⟨"https", "a.com", "/x/v2", "", ""⟩

/-- C5 counterexample: two distinct canonicalized source URLs whose derived
output directories coincide — both map to "v1" — so two concurrent jobs
can share an output directory. -/
theorem C5_counterexample_shared_dir :
    (Extractor.ExtractURL uA).1 ≠ (Extractor.ExtractURL uB).1 ∧
      (Extractor.ExtractURL uA).2 = (Extractor.ExtractURL uB).2 := by
  exact ⟨by decide, rfl⟩

/-- C5 (amended): the derived output directory is a deterministic function
of the URL's path alone, namely the basename of the path after stripping a
trailing slash; two URLs get distinct directories whenever those basenames
differ, but equality of the full canonicalized URL is NOT required —
distinct URLs with equal path basenames share a directory. -/
theorem C5_output_dir_determined_by_basename :
    (∀ u v : Extractor.GoURL, u.path = v.path →
        (Extractor.ExtractURL u).2 = (Extractor.ExtractURL v).2) ∧
    (∀ u v : Extractor.GoURL,
        Extractor.pathBase (Extractor.trimSuffixSlash u.path) ≠
          Extractor.pathBase (Extractor.trimSuffixSlash v.path) →
        (Extractor.ExtractURL u).2 ≠ (Extractor.ExtractURL v).2) := by
  constructor
  · intro u v h
    show Extractor.pathBase (Extractor.trimSuffixSlash u.path) =
      Extractor.pathBase (Extractor.trimSuffixSlash v.path)
    rw [h]
  · intro u v h
    exact h

/-- C5 witness: the amended theorem applied to the concrete URLs `uA`, `uC`
(same directory prefix, different basenames). -/
theorem C5_output_dir_witness :
    (Extractor.ExtractURL uA).2 ≠ (Extractor.ExtractURL uC).2 :=
  C5_output_dir_determined_by_basename.2 uA uC (by decide)

/-- C10: for every parsed URL whose path is empty or "/", `ExtractURL`
returns "." as the derived output-directory name. -/
theorem C10_empty_path_gives_dot (u : Extractor.GoURL)
    (h : u.path = "" ∨ u.path = "/") :
    (Extractor.ExtractURL u).2 = "." := by
  show Extractor.pathBase (Extractor.trimSuffixSlash u.path) = "."
  rcases h with h | h <;> rw [h] <;> decide

/-- C10 witness: the theorem applied at the bare-host URL
`https://example.com` (empty path). -/
theorem C10_empty_path_witness :
    (Extractor.ExtractURL ⟨"https", "example.com", "", "", ""⟩).2 = "." :=
  C10_empty_path_gives_dot ⟨"https", "example.com", "", "", ""⟩ (Or.inl rfl)

namespace Pipeline

/-! ### The Dispatch stage (`startJobDispatcher` in main.go)

Per job taken from the job queue the dispatcher calls
`extractor.ExtractURL`, derives the effective output directory (joined
under the configured output root when it is not "./"), queries the dedup
store (`database.IsDownloaded`), and either skips the job — incrementing
the completed-jobs counter, the stats marking of a completed job — or
forwards it to the download queue.  Only forwarded jobs are ever seen by
the download workers, which are the sole callers of the extraction
collaborator (`GetVideoDetails`) and of the merge collaborator
(`MergeFiles`). -/

structure Job where
  id : Int
  url : String
  status : String
  deriving DecidableEq

inductive DispatchOutcome where
  | extractFailed
  | skipCompleted
  | forwarded (job : Job)
  deriving DecidableEq

/-- `filepath.Join(config.OutputDir, outputDir)` guarded by the
`config.OutputDir != "./"` check. -/
def effectiveOutputDir (configOutputDir outputDir : String) : String :=
  if configOutputDir ≠ "./" then configOutputDir ++ "/" ++ outputDir
  else outputDir

def dispatchJob (extract : String → Option (String × String))
    (isDownloaded : String → Bool) (configOutputDir : String)
    (job : Job) : DispatchOutcome :=
  match extract job.url with
  | none => .extractFailed
  | some (_, outputDir) =>
    if isDownloaded (effectiveOutputDir configOutputDir outputDir)
    then .skipCompleted
    else .forwarded { job with status := "dispatched" }

/-- How much the dispatcher adds to `PipelineStats.CompletedJobs` for an
outcome (`p.incrementCompleted()` runs exactly on the skip branch). -/
def completedDelta : DispatchOutcome → Nat
  | .skipCompleted => 1
  | _ => 0

/-- Number of download-worker invocations an outcome causes: the download
stage — and through it the extraction and merge collaborators — only ever
processes forwarded jobs. -/
def downloadStageInvocations : DispatchOutcome → Nat
  | .forwarded _ => 1
  | _ => 0

end Pipeline

/-- C6: when the dedup store already reports the job's derived output key
as a member, the Dispatch stage marks the job completed (increments the
completed-jobs counter by one) and never forwards it to the Download (and
hence Upload) stage, so no collaborator is invoked for it. -/
theorem C6_dedup_member_skips (extract : String → Option (String × String))
    (isDownloaded : String → Bool) (cfg : String) (job : Pipeline.Job)
    (u dir : String) (hext : extract job.url = some (u, dir))
    (hmem : isDownloaded (Pipeline.effectiveOutputDir cfg dir) = true) :
    Pipeline.dispatchJob extract isDownloaded cfg job =
        Pipeline.DispatchOutcome.skipCompleted ∧
      Pipeline.completedDelta
        (Pipeline.dispatchJob extract isDownloaded cfg job) = 1 ∧
      Pipeline.downloadStageInvocations
        (Pipeline.dispatchJob extract isDownloaded cfg job) = 0 ∧
      ∀ j, Pipeline.dispatchJob extract isDownloaded cfg job ≠
        Pipeline.DispatchOutcome.forwarded j := by
  have h : Pipeline.dispatchJob extract isDownloaded cfg job =
      Pipeline.DispatchOutcome.skipCompleted := by
    unfold Pipeline.dispatchJob
    rw [hext]
    simp [hmem]
  refine ⟨h, ?_, ?_, ?_⟩
  · rw [h]; rfl
  · rw [h]; rfl
  · intro j
    rw [h]
    intro hcontra
    exact Pipeline.DispatchOutcome.noConfusion hcontra

/-- C6 witness: the theorem applied to a concrete job whose output key the
store reports as a member. -/
theorem C6_dedup_member_skips_witness :
    Pipeline.dispatchJob (fun s => some (s, "v1")) (fun _ => true) "./"
        ⟨1, "https://a.com/x/v1", "queued"⟩ =
      Pipeline.DispatchOutcome.skipCompleted :=
  (C6_dedup_member_skips (fun s => some (s, "v1")) (fun _ => true) "./"
    ⟨1, "https://a.com/x/v1", "queued"⟩ "https://a.com/x/v1" "v1" rfl rfl).1

namespace Mediaprocess

/-! ### `mediaprocess.SplitVideoWithFFmpeg`

`os.Stat`, `ffprobe` (duration) and `ffmpeg` are external; the embedding
takes the stat size and the probed duration as inputs and models the
all-commands-succeed path (a failing command returns an error instead).
The Go float64 duration arithmetic is modelled exactly over ℚ. -/

def maxPartSizeMB : Nat := 1900

inductive SplitOutput where
  | original (path : String)
  | parts (starts : List ℚ)
  deriving DecidableEq

/-- `SplitVideoWithFFmpeg(inputPath)`: computes `fileSizeMB` by integer
division, returns the input unsplit when `fileSizeMB <= 1900`, and
otherwise cuts `numParts = (fileSizeMB + 1899) / 1900` parts, part `i`
starting at `i * (duration / numParts)`. -/
def SplitVideoWithFFmpeg (sizeBytes : Nat) (duration : ℚ)
    (inputPath : String) : SplitOutput :=
  let fileSizeMB := sizeBytes / (1024 * 1024)
  if fileSizeMB ≤ maxPartSizeMB then .original inputPath
  else
    let numParts := (fileSizeMB + maxPartSizeMB - 1) / maxPartSizeMB
    let partDuration := duration / (numParts : ℚ)
    .parts ((List.range numParts).map (fun i : Nat => (i : ℚ) * partDuration))

end Mediaprocess

/-- C7 counterexample: a file of `1900 * 2^20 + 1` bytes is strictly above
the 1900 MB threshold, yet `SplitVideoWithFFmpeg` returns it unsplit,
because the size is first truncated to whole mebibytes. -/
theorem C7_counterexample_truncated_threshold :
    Mediaprocess.SplitVideoWithFFmpeg 1992294401 60 "in.mp4" =
        Mediaprocess.SplitOutput.original "in.mp4" ∧
      1900 * 1024 * 1024 < 1992294401 := by
  exact ⟨by decide, by norm_num⟩

/-- C7 (amended): `SplitVideoWithFFmpeg` returns the file unsplit exactly
when its size in whole mebibytes (integer division) is at most 1900 —
equivalently when the byte size is strictly below 1901 MiB — and otherwise
produces exactly `ceil(fileSizeMB / 1900)` parts whose start times divide
the total duration evenly: part `i` starts at `i * (duration / numParts)`. -/
theorem C7_split_threshold_and_parts (inputPath : String) (sizeBytes : Nat)
    (duration : ℚ) :
    (Mediaprocess.SplitVideoWithFFmpeg sizeBytes duration inputPath =
        Mediaprocess.SplitOutput.original inputPath ↔
      sizeBytes < 1901 * 1024 * 1024) ∧
    (1901 * 1024 * 1024 ≤ sizeBytes →
      ∃ starts : List ℚ,
        Mediaprocess.SplitVideoWithFFmpeg sizeBytes duration inputPath =
            Mediaprocess.SplitOutput.parts starts ∧
          starts.length = (sizeBytes / (1024 * 1024) + 1899) / 1900 ∧
          (starts.length : ℤ) = ⌈((sizeBytes / (1024 * 1024) : Nat) : ℚ) / 1900⌉ ∧
          ∀ i (h : i < starts.length),
            starts.get ⟨i, h⟩ = (i : ℚ) * (duration / (starts.length : ℚ))) := by
  constructor
  · constructor
    · intro h
      by_cases hle : sizeBytes / (1024 * 1024) ≤ 1900
      · omega
      · exfalso
        simp only [Mediaprocess.SplitVideoWithFFmpeg, Mediaprocess.maxPartSizeMB,
          if_neg hle] at h
        exact Mediaprocess.SplitOutput.noConfusion h
    · intro h
      have hle : sizeBytes / (1024 * 1024) ≤ 1900 := by omega
      simp [Mediaprocess.SplitVideoWithFFmpeg, Mediaprocess.maxPartSizeMB, hle]
  · intro h
    have hgt : ¬ sizeBytes / (1024 * 1024) ≤ 1900 := by omega
    have hcount : (sizeBytes / (1024 * 1024) + 1900 - 1) / 1900 =
        (sizeBytes / (1024 * 1024) + 1899) / 1900 := by omega
    refine ⟨(List.range ((sizeBytes / (1024 * 1024) + 1899) / 1900)).map
        (fun i : Nat => (i : ℚ) *
          (duration / (((sizeBytes / (1024 * 1024) + 1899) / 1900 : Nat) : ℚ))),
      ?_, ?_, ?_, ?_⟩
    · simp only [Mediaprocess.SplitVideoWithFFmpeg, Mediaprocess.maxPartSizeMB,
        if_neg hgt, hcount]
    · simp
    · simp only [List.length_map, List.length_range]
      have hm : 1901 ≤ sizeBytes / (1024 * 1024) := by omega
      set M := sizeBytes / (1024 * 1024) with hM
      set N := (M + 1899) / 1900 with hN
      have h1 : M ≤ 1900 * N := by omega
      have h2 : 1900 * N < M + 1900 := by omega
      symm
      rw [Int.ceil_eq_iff]
      constructor
      · rw [lt_div_iff₀ (by norm_num : (0 : ℚ) < 1900)]
        have h2q : (1900 : ℚ) * N < M + 1900 := by exact_mod_cast h2
        push_cast
        linarith
      · rw [div_le_iff₀ (by norm_num : (0 : ℚ) < 1900)]
        have h1q : (M : ℚ) ≤ 1900 * N := by exact_mod_cast h1
        push_cast
        linarith
    · intro i hi
      simp only [List.length_map, List.length_range] at hi
      simp [List.get_eq_getElem, List.getElem_map, List.getElem_range,
        List.length_map, List.length_range]

/-- C7 witness: the amended theorem applied to a concrete 1902 MiB file
(split into 2 parts of equal duration). -/
theorem C7_split_witness :
    ∃ starts : List ℚ,
      Mediaprocess.SplitVideoWithFFmpeg 1994391552 10 "in.mp4" =
          Mediaprocess.SplitOutput.parts starts ∧
        starts.length = (1994391552 / (1024 * 1024) + 1899) / 1900 ∧
        (starts.length : ℤ) = ⌈((1994391552 / (1024 * 1024) : Nat) : ℚ) / 1900⌉ ∧
        ∀ i (h : i < starts.length),
          starts.get ⟨i, h⟩ = (i : ℚ) * (10 / (starts.length : ℚ)) :=
  (C7_split_threshold_and_parts "in.mp4" 1994391552 10).2 (by norm_num)

namespace Downloader

/-! ### Filesystem model and `downloadSegment`

The filesystem is a map from paths to file states; `downloadSegment`'s
effects are recorded as an explicit trace of primitive operations.  The
HTTP request and the outcomes of the `os`/`io` calls are oracles in
`SegmentEnv`; a removal (`os.Remove`, whose error the Go code discards) is
modelled as succeeding. -/

inductive FState where
  | absent
  | incomplete (n : Int)
  | full (n : Int)
  deriving DecidableEq

/-- `os.Stat`: the on-disk size, `none` when the file is absent. -/
def statSize : FState → Option Int
  | .absent => none
  | .incomplete n => some n
  | .full n => some n

inductive FsOp where
  | create (p : String)
  | copyAll (p : String) (n : Int)
  | copyPart (p : String) (n : Int)
  | remove (p : String)
  | rename (src dst : String)
  deriving DecidableEq

def applyOp (fs : String → FState) : FsOp → String → FState
  | .create p => fun q => if q = p then .incomplete 0 else fs q
  | .copyAll p n => fun q => if q = p then .full n else fs q
  | .copyPart p n => fun q => if q = p then .incomplete n else fs q
  | .remove p => fun q => if q = p then .absent else fs q
  | .rename src dst => fun q =>
      if q = dst then fs src else if q = src then .absent else fs q

def applyOps (fs : String → FState) (ops : List FsOp) : String → FState :=
  ops.foldl applyOp fs

/-- The path an operation writes bytes to (`none` for remove/rename, which
move or delete but write no content). -/
def writeTarget : FsOp → Option String
  | .create p => some p
  | .copyAll p _ => some p
  | .copyPart p _ => some p
  | .remove _ => none
  | .rename _ _ => none

structure SegmentEnv where
  httpOk : Bool
  createOk : Bool
  copyBytes : Option Int
  copyFailBytes : Int
  renameOk : Bool
  deriving DecidableEq

structure SegmentResult where
  trace : List FsOp
  ok : Bool
  netRequests : Nat
  tracker : OverallProgress
  deriving DecidableEq

/-- The fetch half of `downloadSegment` (everything after the existence
check): GET, create `fpath + ".tmp"`, copy, and commit by rename; the two
failure exits after the temp file exists remove it. -/
def downloadSegmentFetch (env : SegmentEnv) (fpath : String)
    (segmentIndex : Int) (tracker : OverallProgress) : SegmentResult :=
  let tmp := fpath ++ ".tmp"
  if ¬ env.httpOk then ⟨[], false, 1, tracker⟩
  else if ¬ env.createOk then ⟨[], false, 1, tracker⟩
  else
    match env.copyBytes with
    | none =>
      ⟨[.create tmp, .copyPart tmp env.copyFailBytes, .remove tmp],
        false, 1, tracker⟩
    | some n =>
      if env.renameOk then
        ⟨[.create tmp, .copyAll tmp n, .rename tmp fpath],
          true, 1, UpdateSegment tracker segmentIndex true n⟩
      else
        ⟨[.create tmp, .copyAll tmp n, .remove tmp], false, 1, tracker⟩

/-- `downloadSegment(url, filepath, segmentIndex, progressTracker)`: an
existing non-empty target short-circuits with no network request and a
progress update from the stat size; otherwise the segment is fetched. -/
def downloadSegment (env : SegmentEnv) (fs : String → FState)
    (fpath : String) (segmentIndex : Int)
    (tracker : OverallProgress) : SegmentResult :=
  match statSize (fs fpath) with
  | some n =>
    if 0 < n then ⟨[], true, 0, UpdateSegment tracker segmentIndex true n⟩
    else downloadSegmentFetch env fpath segmentIndex tracker
  | none => downloadSegmentFetch env fpath segmentIndex tracker

lemma append_tmp_ne (s : String) : s ++ ".tmp" ≠ s := by
  intro h
  have hl := congrArg String.length h
  rw [String.length_append] at hl
  have h4 : ".tmp".length = 4 := rfl
  omega

lemma downloadSegmentFetch_spec (env : SegmentEnv) (fs : String → FState)
    (fpath : String) (segmentIndex : Int) (tracker : OverallProgress) :
    (∀ op ∈ (downloadSegmentFetch env fpath segmentIndex tracker).trace,
        writeTarget op = none ∨ writeTarget op = some (fpath ++ ".tmp")) ∧
      (applyOps fs (downloadSegmentFetch env fpath segmentIndex tracker).trace
            fpath = fs fpath ∨
        ∃ n, applyOps fs
            (downloadSegmentFetch env fpath segmentIndex tracker).trace fpath =
              FState.full n ∧
          (downloadSegmentFetch env fpath segmentIndex tracker).ok = true) ∧
      (FsOp.create (fpath ++ ".tmp") ∈
          (downloadSegmentFetch env fpath segmentIndex tracker).trace →
        (downloadSegmentFetch env fpath segmentIndex tracker).ok = false →
        applyOps fs (downloadSegmentFetch env fpath segmentIndex tracker).trace
          (fpath ++ ".tmp") = FState.absent) := by
  have hne : fpath ≠ fpath ++ ".tmp" := fun h => append_tmp_ne fpath h.symm
  have hne' : (fpath ++ ".tmp") ≠ fpath := append_tmp_ne fpath
  unfold downloadSegmentFetch
  by_cases hh : env.httpOk
  case neg =>
    simp only [hh, Bool.false_eq_true, not_false_eq_true, if_true]
    refine ⟨by simp, Or.inl rfl, by simp⟩
  case pos =>
  simp only [hh, not_true_eq_false, if_false]
  by_cases hc : env.createOk
  case neg =>
    simp only [hc, Bool.false_eq_true, not_false_eq_true, if_true]
    refine ⟨by simp, Or.inl rfl, by simp⟩
  case pos =>
  simp only [hc, not_true_eq_false, if_false]
  cases hcb : env.copyBytes with
  | none =>
    refine ⟨?_, ?_, ?_⟩
    · intro op hop
      simp only [List.mem_cons, List.not_mem_nil, or_false] at hop
      rcases hop with rfl | rfl | rfl <;> simp [writeTarget]
    · left
      simp [applyOps, applyOp, hne]
    · intro _ _
      simp [applyOps, applyOp]
  | some n =>
    by_cases hr : env.renameOk
    · simp only [hr, if_true]
      refine ⟨?_, ?_, ?_⟩
      · intro op hop
        simp only [List.mem_cons, List.not_mem_nil, or_false] at hop
        rcases hop with rfl | rfl | rfl <;> simp [writeTarget]
      · right
        refine ⟨n, ?_, by trivial⟩
        simp [applyOps, applyOp, hne, hne']
      · intro _ hok
        simp at hok
    · simp only [hr, Bool.false_eq_true, if_false]
      refine ⟨?_, ?_, ?_⟩
      · intro op hop
        simp only [List.mem_cons, List.not_mem_nil, or_false] at hop
        rcases hop with rfl | rfl | rfl <;> simp [writeTarget]
      · left
        simp [applyOps, applyOp, hne]
      · intro _ _
        simp [applyOps, applyOp]

end Downloader

/-- C3: whenever `downloadSegment` performs a network fetch (one request is
issued), (1) every byte-writing operation targets only the temporary path
`filepath + ".tmp"`; (2) the final path is either untouched or holds a
complete file produced by the committing rename of a successful call;
(3) on every failure exit after the temporary file was created the
temporary path ends up removed; hence (4) the final path is never left in
a partially-written state. -/
theorem C3_atomic_temp_write (env : Downloader.SegmentEnv)
    (fs : String → Downloader.FState) (fpath : String) (segmentIndex : Int)
    (tracker : Downloader.OverallProgress)
    (hfetch : (Downloader.downloadSegment env fs fpath segmentIndex
      tracker).netRequests = 1) :
    (∀ op ∈ (Downloader.downloadSegment env fs fpath segmentIndex
        tracker).trace,
      Downloader.writeTarget op = none ∨
        Downloader.writeTarget op = some (fpath ++ ".tmp")) ∧
    (Downloader.applyOps fs (Downloader.downloadSegment env fs fpath
          segmentIndex tracker).trace fpath = fs fpath ∨
      ∃ n, Downloader.applyOps fs (Downloader.downloadSegment env fs fpath
          segmentIndex tracker).trace fpath = Downloader.FState.full n ∧
        (Downloader.downloadSegment env fs fpath segmentIndex
          tracker).ok = true) ∧
    (Downloader.FsOp.create (fpath ++ ".tmp") ∈
        (Downloader.downloadSegment env fs fpath segmentIndex tracker).trace →
      (Downloader.downloadSegment env fs fpath segmentIndex tracker).ok =
        false →
      Downloader.applyOps fs (Downloader.downloadSegment env fs fpath
        segmentIndex tracker).trace (fpath ++ ".tmp") =
          Downloader.FState.absent) ∧
    ((∀ n, fs fpath ≠ Downloader.FState.incomplete n) →
      ∀ n, Downloader.applyOps fs (Downloader.downloadSegment env fs fpath
        segmentIndex tracker).trace fpath ≠
          Downloader.FState.incomplete n) := by
  have hr : Downloader.downloadSegment env fs fpath segmentIndex tracker =
      Downloader.downloadSegmentFetch env fpath segmentIndex tracker := by
    unfold Downloader.downloadSegment at hfetch ⊢
    cases hst : Downloader.statSize (fs fpath) with
    | none => rfl
    | some n =>
      rw [hst] at hfetch
      dsimp only at hfetch ⊢
      by_cases hn : 0 < n
      · rw [if_pos hn] at hfetch
        simp at hfetch
      · rw [if_neg hn]
  rw [hr] at hfetch ⊢
  obtain ⟨h1, h2, h3⟩ :=
    Downloader.downloadSegmentFetch_spec env fs fpath segmentIndex tracker
  refine ⟨h1, h2, h3, ?_⟩
  intro hclean n
  rcases h2 with heq | ⟨m, heq, _⟩
  · rw [heq]
    exact hclean n
  · rw [heq]
    intro hcontra
    exact Downloader.FState.noConfusion hcontra

/-- Environment for the C3 witness: the HTTP fetch and the temp-file
creation succeed, but `io.Copy` fails after 3 bytes. -/
def envC3w : Downloader.SegmentEnv := ⟨true, true, none, 3, true⟩

/-- An empty filesystem for the C3 and C4 witnesses. -/
def fsEmpty : String → Downloader.FState := fun _ => Downloader.FState.absent

/-- C3 witness: on a concrete failing copy, the temporary path ends up
removed. -/
theorem C3_atomic_temp_write_witness :
    Downloader.applyOps fsEmpty
        (Downloader.downloadSegment envC3w fsEmpty "seg" 0
          (Downloader.NewOverallProgress 1)).trace ("seg" ++ ".tmp") =
      Downloader.FState.absent :=
  (C3_atomic_temp_write envC3w fsEmpty "seg" 0
      (Downloader.NewOverallProgress 1) (by decide)).2.2.1
    (by decide) (by decide)

namespace Downloader

/-- `filepath.Join(outputDir, fmt.Sprintf("segment_%04d.ts", i))`. -/
def segPath (outputDir : String) (i : Nat) : String :=
  outputDir ++ "/" ++ String.mk (segmentFilename i)

/-- The per-index effect of `downloadSegmentsConcurrently`: the worker pool
applies `downloadSegment` exactly once to every index, and the quantities
below (filesystem result, total network requests, tracker counters) are
independent of the interleaving, so the pool is embedded as a fold in index
order.  Returns (final filesystem, total network requests, tracker). -/
def runSegments (env : Nat → SegmentEnv) (outputDir : String) :
    (String → FState) → OverallProgress → List Nat →
      (String → FState) × Nat × OverallProgress
  | fs, tracker, [] => (fs, 0, tracker)
  | fs, tracker, i :: rest =>
    let r := downloadSegment (env i) fs (segPath outputDir i) (i : Int) tracker
    let out := runSegments env outputDir (applyOps fs r.trace) r.tracker rest
    (out.1, r.netRequests + out.2.1, out.2.2)

/-- `countDownloadedSegments(outputDir, totalSegments)`: counts the indices
whose segment file exists with positive size. -/
def countDownloadedSegments (fs : String → FState) (outputDir : String)
    (totalSegments : Nat) : Nat :=
  ((List.range totalSegments).filter (fun i =>
    match statSize (fs (segPath outputDir i)) with
    | some n => decide (0 < n)
    | none => false)).length

lemma downloadSegment_resume (env : SegmentEnv) (fs : String → FState)
    (fpath : String) (segmentIndex : Int) (tracker : OverallProgress)
    (n : Int) (hst : statSize (fs fpath) = some n) (hn : 0 < n) :
    downloadSegment env fs fpath segmentIndex tracker =
      ⟨[], true, 0, UpdateSegment tracker segmentIndex true n⟩ := by
  unfold downloadSegment
  rw [hst]
  dsimp only
  rw [if_pos hn]

lemma runSegments_all_present (env : Nat → SegmentEnv) (outputDir : String) :
    ∀ (l : List Nat) (fs : String → FState) (tracker : OverallProgress),
      (∀ i ∈ l, ∃ n, statSize (fs (segPath outputDir i)) = some n ∧ 0 < n) →
      (runSegments env outputDir fs tracker l).1 = fs ∧
        (runSegments env outputDir fs tracker l).2.1 = 0 ∧
        (runSegments env outputDir fs tracker l).2.2.completedSegments =
          tracker.completedSegments + l.length ∧
        (runSegments env outputDir fs tracker l).2.2.totalSegments =
          tracker.totalSegments := by
  intro l
  induction l with
  | nil => intro fs tracker _; exact ⟨rfl, rfl, by simp [runSegments], rfl⟩
  | cons i rest ih =>
    intro fs tracker hall
    obtain ⟨n, hst, hn⟩ := hall i (List.mem_cons_self i rest)
    have hres := downloadSegment_resume (env i) fs (segPath outputDir i)
      (i : Int) tracker n hst hn
    have hrest : ∀ j ∈ rest, ∃ m,
        statSize (fs (segPath outputDir j)) = some m ∧ 0 < m :=
      fun j hj => hall j (List.mem_cons_of_mem i hj)
    obtain ⟨ih1, ih2, ih3, ih4⟩ :=
      ih fs (UpdateSegment tracker (i : Int) true n) hrest
    simp only [runSegments, hres]
    refine ⟨?_, ?_, ?_, ?_⟩
    · simpa [applyOps] using ih1
    · simpa [applyOps] using ih2
    · rw [show applyOps fs [] = fs from rfl]
      rw [ih3]
      simp [UpdateSegment, List.length_cons]
      ring
    · rw [show applyOps fs [] = fs from rfl]
      rw [ih4]
      simp [UpdateSegment]

end Downloader

/-- C4: a segment whose target file exists with positive size is recorded
complete from the stat size with no network request; consequently a re-run
over a directory holding all `M` segment files non-empty issues zero
network requests, leaves the filesystem untouched, ends the fresh tracker
at `M` of `M` completed, and `countDownloadedSegments` reports `M`. -/
theorem C4_resume_skips_network (env : Nat → Downloader.SegmentEnv)
    (fs : String → Downloader.FState) (outputDir : String) (M : Nat)
    (hall : ∀ i ∈ List.range M,
      ∃ n, Downloader.statSize (fs (Downloader.segPath outputDir i)) =
          some n ∧ 0 < n) :
    (∀ (e : Downloader.SegmentEnv) (fpath : String) (idx n : Int)
        (tracker : Downloader.OverallProgress),
      Downloader.statSize (fs fpath) = some n → 0 < n →
      Downloader.downloadSegment e fs fpath idx tracker =
        ⟨[], true, 0, Downloader.UpdateSegment tracker idx true n⟩) ∧
    (Downloader.runSegments env outputDir fs
        (Downloader.NewOverallProgress (M : Int)) (List.range M)).1 = fs ∧
    (Downloader.runSegments env outputDir fs
        (Downloader.NewOverallProgress (M : Int)) (List.range M)).2.1 = 0 ∧
    (Downloader.runSegments env outputDir fs
        (Downloader.NewOverallProgress (M : Int))
        (List.range M)).2.2.completedSegments =
      (Downloader.runSegments env outputDir fs
        (Downloader.NewOverallProgress (M : Int))
        (List.range M)).2.2.totalSegments ∧
    Downloader.countDownloadedSegments fs outputDir M = M := by
  obtain ⟨h1, h2, h3, h4⟩ :=
    Downloader.runSegments_all_present env outputDir (List.range M) fs
      (Downloader.NewOverallProgress (M : Int)) hall
  refine ⟨?_, h1, h2, ?_, ?_⟩
  · intro e fpath idx n tracker hst hn
    exact Downloader.downloadSegment_resume e fs fpath idx tracker n hst hn
  · rw [h3, h4]
    simp [Downloader.NewOverallProgress]
  · unfold Downloader.countDownloadedSegments
    have : (List.range M).filter (fun i =>
        match Downloader.statSize (fs (Downloader.segPath outputDir i)) with
        | some n => decide (0 < n)
        | none => false) = List.range M := by
      rw [List.filter_eq_self]
      intro i hi
      obtain ⟨n, hst, hn⟩ := hall i hi
      rw [hst]
      simpa using hn
    rw [this, List.length_range]

/-- Filesystem for the C4 witness: both segment files of a 2-segment job
already present and non-empty. -/
def fsC4w : String → Downloader.FState := fun p =>
  if p = Downloader.segPath "out" 0 then Downloader.FState.full 100
  else if p = Downloader.segPath "out" 1 then Downloader.FState.full 200
  else Downloader.FState.absent

def envC4w : Nat → Downloader.SegmentEnv := fun _ => ⟨true, true, some 1, 0, true⟩

/-- C4 witness: re-running the fetch over the complete 2-segment directory
issues zero network requests and reports 2 of 2 segments present. -/
theorem C4_resume_skips_network_witness :
    (Downloader.runSegments envC4w "out" fsC4w
        (Downloader.NewOverallProgress ((2 : Nat) : Int))
        (List.range 2)).2.1 = 0 ∧
      Downloader.countDownloadedSegments fsC4w "out" 2 = 2 := by
  have h := C4_resume_skips_network envC4w fsC4w "out" 2 (by
    intro i hi
    fin_cases hi
    · exact ⟨100, by decide⟩
    · exact ⟨200, by decide⟩)
  exact ⟨h.2.2.1, h.2.2.2.2⟩

namespace Downloader

/-! ### `StartDownloadTask` and `MergeFiles` control flow

Only the claim-relevant control flow is embedded: which external-step
outcomes lead to `os.Exit(1)`, to `panic`, or to a normal return.  The
playlist parse reuses `parseM3U8Content` above. -/

inductive TaskOutcome where
  | exitProcess (code : Nat)
  | finished (segmentCount : Nat)
  deriving DecidableEq

structure StartEnv where
  ensureDirOk : Bool
  playlistFetchOk : Bool
  readContent : Option String
  relParse : String → Option String
  baseOk : Bool

/-- `StartDownloadTask(m3u8URL, outputDir, concurrentSegmentsCount)`: every
early failure — directory creation, playlist download, playlist read,
playlist parse, empty segment list — calls `os.Exit(1)`; otherwise the
download loop runs to the summary and the function returns. -/
def StartDownloadTask (env : StartEnv) : TaskOutcome :=
  if ¬ env.ensureDirOk then .exitProcess 1
  else if ¬ env.playlistFetchOk then .exitProcess 1
  else
    match env.readContent with
    | none => .exitProcess 1
    | some content =>
      match parseM3U8Content env.relParse content env.baseOk with
      | .error _ => .exitProcess 1
      | .ok segments =>
        if segments.length = 0 then .exitProcess 1
        else .finished segments.length

inductive MergeOutcome where
  | panicked
  | earlyReturn
  | merged
  deriving DecidableEq

structure MergeEnv where
  globOk : Bool
  tsFiles : List String
  concatCreateOk : Bool
  ffmpegOk : Bool
  deriving DecidableEq

/-- `MergeFiles(outputDir, outputName, ...)`: panics on a glob error, on a
concat-list creation error and on an `ffmpeg` failure; returns early when
no `.ts` files are found. -/
def MergeFiles (env : MergeEnv) : MergeOutcome :=
  if ¬ env.globOk then .panicked
  else if env.tsFiles.length = 0 then .earlyReturn
  else if ¬ env.concatCreateOk then .panicked
  else if ¬ env.ffmpegOk then .panicked
  else .merged

end Downloader

namespace Pipeline

/-! ### `processDownloadJob` (main.go download worker) -/

inductive JobStep where
  | sendResult (hasError : Bool)
  | exitProcess (code : Nat)
  | panicked
  deriving DecidableEq

structure JobEnv where
  extractOk : Option (String × String)
  customOutputDir : Bool
  mkdirOk : Bool
  videoDetails : Option (String × String)
  videoExists : Bool
  startEnv : Downloader.StartEnv
  mergeEnv : Downloader.MergeEnv

/-- The merge call at the end of `processDownloadJob`: a panic inside
`MergeFiles` unwinds the worker; otherwise the success result is sent. -/
def mergeStep (menv : Downloader.MergeEnv) : JobStep :=
  match Downloader.MergeFiles menv with
  | .panicked => .panicked
  | _ => .sendResult false

/-- `processDownloadJob(workerID, job)`: failures of `ExtractURL`,
`MkdirAll`, `GetVideoDetails` and an empty playlist URL become the error of
the `DownloadResult` sent downstream; then `StartDownloadTask` (which may
exit the process) runs unless the video file already exists, and
`MergeFiles` (which may panic) runs unconditionally. -/
def processDownloadJob (env : JobEnv) : JobStep :=
  match env.extractOk with
  | none => .sendResult true
  | some _ =>
    if env.customOutputDir && !env.mkdirOk then .sendResult true
    else
      match env.videoDetails with
      | none => .sendResult true
      | some (m3u8URL, _) =>
        if m3u8URL = "" then .sendResult true
        else
          if env.videoExists then mergeStep env.mergeEnv
          else
            match Downloader.StartDownloadTask env.startEnv with
            | .exitProcess c => .exitProcess c
            | .finished _ => mergeStep env.mergeEnv

end Pipeline

/-- Start environment in which the playlist HTTP fetch fails. -/
def sEnvPlaylistFail : Downloader.StartEnv :=
  ⟨true, false, some "", fun _ => none, true⟩

/-- Start environment in which everything succeeds and the playlist holds
one segment line. -/
def sEnvOk : Downloader.StartEnv :=
  ⟨true, true, some "s.ts", fun s => some s, true⟩

def mEnvFfmpegFail : Downloader.MergeEnv := ⟨true, ["a.ts"], true, false⟩

def mEnvOk : Downloader.MergeEnv := ⟨true, ["a.ts"], true, true⟩

/-- Download-worker environment whose only failure is the playlist fetch. -/
def jEnvPlaylistFail : Pipeline.JobEnv :=
  ⟨some ("u", "d"), false, true, some ("http://m", "t"), false,
    sEnvPlaylistFail, mEnvOk⟩

/-- Download-worker environment whose only failure is the ffmpeg merge. -/
def jEnvMergeFail : Pipeline.JobEnv :=
  ⟨some ("u", "d"), false, true, some ("http://m", "t"), false,
    sEnvOk, mEnvFfmpegFail⟩

/-- C1 counterexample: a playlist fetch failure (an expected network
failure class) makes the Download stage terminate the whole process via
`os.Exit(1)`, and a merge-command failure makes it panic — in neither case
is a job-level error carried in a forwarded `DownloadResult`. -/
theorem C1_counterexample_exit_and_panic :
    Pipeline.processDownloadJob jEnvPlaylistFail =
        Pipeline.JobStep.exitProcess 1 ∧
      (∀ b, Pipeline.processDownloadJob jEnvPlaylistFail ≠
        Pipeline.JobStep.sendResult b) ∧
      Pipeline.processDownloadJob jEnvMergeFail = Pipeline.JobStep.panicked ∧
      (∀ b, Pipeline.processDownloadJob jEnvMergeFail ≠
        Pipeline.JobStep.sendResult b) := by
  refine ⟨by decide, ?_, by decide, ?_⟩ <;> decide

/-- C1 (amended): failures of URL extraction, of directory creation, of
video-details extraction, and an empty playlist URL become job-level
errors carried in the `DownloadResult` forwarded downstream, terminating
only that job; but an expected failure inside `StartDownloadTask`
(playlist fetch, read, parse, or an empty segment list) terminates the
whole process via `os.Exit(1)`, and a merge-command failure inside
`MergeFiles` panics. -/
theorem C1_failure_propagation (env : Pipeline.JobEnv) :
    (env.extractOk = none →
      Pipeline.processDownloadJob env = Pipeline.JobStep.sendResult true) ∧
    (∀ p, env.extractOk = some p →
      (env.customOutputDir && !env.mkdirOk) = true →
      Pipeline.processDownloadJob env = Pipeline.JobStep.sendResult true) ∧
    (∀ p, env.extractOk = some p →
      (env.customOutputDir && !env.mkdirOk) = false →
      env.videoDetails = none →
      Pipeline.processDownloadJob env = Pipeline.JobStep.sendResult true) ∧
    (∀ p t, env.extractOk = some p →
      (env.customOutputDir && !env.mkdirOk) = false →
      env.videoDetails = some ("", t) →
      Pipeline.processDownloadJob env = Pipeline.JobStep.sendResult true) ∧
    (∀ p m t c, env.extractOk = some p →
      (env.customOutputDir && !env.mkdirOk) = false →
      env.videoDetails = some (m, t) → m ≠ "" → env.videoExists = false →
      Downloader.StartDownloadTask env.startEnv =
        Downloader.TaskOutcome.exitProcess c →
      Pipeline.processDownloadJob env = Pipeline.JobStep.exitProcess c) ∧
    (∀ p m t, env.extractOk = some p →
      (env.customOutputDir && !env.mkdirOk) = false →
      env.videoDetails = some (m, t) → m ≠ "" → env.videoExists = true →
      Downloader.MergeFiles env.mergeEnv = Downloader.MergeOutcome.panicked →
      Pipeline.processDownloadJob env = Pipeline.JobStep.panicked) ∧
    (∀ p m t k, env.extractOk = some p →
      (env.customOutputDir && !env.mkdirOk) = false →
      env.videoDetails = some (m, t) → m ≠ "" → env.videoExists = false →
      Downloader.StartDownloadTask env.startEnv =
        Downloader.TaskOutcome.finished k →
      Downloader.MergeFiles env.mergeEnv = Downloader.MergeOutcome.panicked →
      Pipeline.processDownloadJob env = Pipeline.JobStep.panicked) ∧
    (∀ se : Downloader.StartEnv, se.ensureDirOk = true →
      se.playlistFetchOk = false →
      Downloader.StartDownloadTask se = Downloader.TaskOutcome.exitProcess 1) ∧
    (∀ (se : Downloader.StartEnv) (content : String),
      se.ensureDirOk = true → se.playlistFetchOk = true →
      se.readContent = some content →
      Downloader.parseM3U8Content se.relParse content se.baseOk =
        Except.ok [] →
      Downloader.StartDownloadTask se = Downloader.TaskOutcome.exitProcess 1) ∧
    (∀ me : Downloader.MergeEnv, me.globOk = true → me.tsFiles ≠ [] →
      me.concatCreateOk = true → me.ffmpegOk = false →
      Downloader.MergeFiles me = Downloader.MergeOutcome.panicked) := by
  refine ⟨?_, ?_, ?_, ?_, ?_, ?_, ?_, ?_, ?_, ?_⟩
  · intro hex
    simp [Pipeline.processDownloadJob, hex]
  · intro p hex hdir
    simp [Pipeline.processDownloadJob, hex, hdir]
  · intro p hex hdir hvd
    simp [Pipeline.processDownloadJob, hex, hdir, hvd]
  · intro p t hex hdir hvd
    simp [Pipeline.processDownloadJob, hex, hdir, hvd]
  · intro p m t c hex hdir hvd hm hve hstart
    simp [Pipeline.processDownloadJob, hex, hdir, hvd, hm, hve, hstart]
  · intro p m t hex hdir hvd hm hve hmerge
    simp [Pipeline.processDownloadJob, Pipeline.mergeStep, hex, hdir, hvd,
      hm, hve, hmerge]
  · intro p m t k hex hdir hvd hm hve hstart hmerge
    simp [Pipeline.processDownloadJob, Pipeline.mergeStep, hex, hdir, hvd,
      hm, hve, hstart, hmerge]
  · intro se h1 h2
    simp [Downloader.StartDownloadTask, h1, h2]
  · intro se content h1 h2 h3 h4
    simp [Downloader.StartDownloadTask, h1, h2, h3, h4]
  · intro me h1 h2 h3 h4
    simp [Downloader.MergeFiles, h1, h2, h3, h4]

/-- C1 witness: the amended theorem's conjuncts applied to concrete
environments — an extraction failure is forwarded as a job error, and the
playlist-fetch failure environment exits the process. -/
theorem C1_failure_propagation_witness :
    Pipeline.processDownloadJob
        ⟨none, false, true, none, false, sEnvOk, mEnvOk⟩ =
      Pipeline.JobStep.sendResult true ∧
      Downloader.StartDownloadTask sEnvPlaylistFail =
        Downloader.TaskOutcome.exitProcess 1 :=
  ⟨(C1_failure_propagation
      ⟨none, false, true, none, false, sEnvOk, mEnvOk⟩).1 rfl,
    (C1_failure_propagation jEnvPlaylistFail).2.2.2.2.2.2.2.1
      sEnvPlaylistFail rfl rfl⟩
